import Mathlib

/-!
Shallow embedding of the whisper batch-transcription scripts
(`transru-fp16-del-txt-srt.py` and `transcribefp16ruundedelete.py`).

Python floats are modelled as exact rationals (`ℚ`); Python strings as
Lean `String` (a wrapper around `List Char`); the filesystem as a partial
map from path strings to file contents; the external Whisper model as an
oracle function from the input path to either a transcription result or
an error.  `print` output is collected in log lists, and raised
exceptions are an explicit `Option String` failure channel.
-/

attribute [local semireducible] Rat.mul Rat.add Rat.sub Rat.inv Rat.ofScientific

namespace Whisper

/-- Python `int(x)` applied to a real value: truncation toward zero. -/
def pyTrunc (x : ℚ) : ℤ :=
  if 0 ≤ x then ⌊x⌋ else -⌊-x⌋

/-- Python float floor-division `a // b` (result is again a float). -/
def pyFloorDiv (a b : ℚ) : ℚ :=
  (⌊a / b⌋ : ℤ)

/-- Python float modulo `a % b`, i.e. `a - b * (a // b)`. -/
def pyMod (a b : ℚ) : ℚ :=
  a - b * (⌊a / b⌋ : ℤ)

/-- Decimal digits of a natural number, most significant first; fuelled
structural recursion so that the kernel can evaluate it. -/
def natToDecAux : Nat → Nat → List Char
  | 0, _ => []
  | fuel + 1, n =>
    if n < 10 then [Nat.digitChar n]
    else natToDecAux fuel (n / 10) ++ [Nat.digitChar (n % 10)]

/-- Decimal representation of a natural number (Python `str` on a
non-negative `int`). -/
def natToDec (n : Nat) : List Char :=
  natToDecAux (n + 1) n

/-- Left-pad a character list with zeros to width `w` (no-op when the
list is already at least that long). -/
def zfillL (w : Nat) (l : List Char) : List Char :=
  List.replicate (w - l.length) '0' ++ l

/-- Python f-string formatting of an integer with zero-padding to a
minimum width `w`, e.g. `f"{n:02}"`; a sign, when present, counts toward
the width and precedes the zeros. -/
def intPad (w : Nat) (n : ℤ) : String :=
  if n < 0 then ⟨'-' :: zfillL (w - 1) (natToDec n.natAbs)⟩
  else ⟨zfillL w (natToDec n.natAbs)⟩

/-- Hour component computed by `format_timestamp`: `int(seconds // 3600)`. -/
def fmtHours (s : ℚ) : ℤ :=
  pyTrunc (pyFloorDiv s 3600)

/-- Minute component computed by `format_timestamp`:
`int((seconds % 3600) // 60)`. -/
def fmtMinutes (s : ℚ) : ℤ :=
  pyTrunc (pyFloorDiv (pyMod s 3600) 60)

/-- Second component computed by `format_timestamp`: `int(seconds % 60)`. -/
def fmtSecs (s : ℚ) : ℤ :=
  pyTrunc (pyMod s 60)

/-- Millisecond component computed by `format_timestamp`:
`int((seconds - int(seconds)) * 1000)`. -/
def fmtMillis (s : ℚ) : ℤ :=
  pyTrunc ((s - (pyTrunc s : ℚ)) * 1000)

/-- The `format_timestamp` function of `transru-fp16-del-txt-srt.py`:
formats a seconds offset as `f"{hours:02}:{minutes:02}:{secs:02},{milliseconds:03}"`. -/
def format_timestamp (seconds : ℚ) : String :=
  intPad 2 (fmtHours seconds) ++ ":" ++ intPad 2 (fmtMinutes seconds) ++ ":" ++
    intPad 2 (fmtSecs seconds) ++ "," ++ intPad 3 (fmtMillis seconds)

/-- Python `str.lower` (ASCII case fold, which is all the extension
filter needs). -/
def pyLower (t : String) : String :=
  ⟨t.data.map Char.toLower⟩

/-- Python `str.endswith`. -/
def pyEndsWith (t suffix : String) : Bool :=
  suffix.data.isSuffixOf t.data

/-- Python `text.replace('\n', ' ')`: a single-character pattern replace,
i.e. a character map. -/
def replaceNewlineWithSpace (t : String) : String :=
  ⟨t.data.map (fun c => if c = '\n' then ' ' else c)⟩

/-- Characters treated as whitespace by Python `str.strip()` (the ASCII
whitespace set). -/
def isPySpace (c : Char) : Bool :=
  c = ' ' || c = '\t' || c = '\n' || c = '\r' || c = '\x0b' || c = '\x0c'

/-- Python `str.strip()`: drop whitespace from both ends. -/
def pyStrip (t : String) : String :=
  ⟨((t.data.dropWhile isPySpace).reverse.dropWhile isPySpace).reverse⟩

/-- Python `os.path.join(a, b)` for POSIX paths: `b` when absolute,
otherwise `a` and `b` glued with a single separator. -/
def pyJoin (a b : String) : String :=
  if b.data.head? = some '/' then b
  else if a.data = [] then b
  else if a.data.getLast? = some '/' then a ++ b
  else a ++ "/" ++ b

/-- Python `os.path.relpath(p, base)` in the only situations the batch
driver uses it: `p` is `base` itself or lies strictly below `base`. -/
def pyRelpath (p base : String) : String :=
  if p = base then "."
  else if (base ++ "/").data.isPrefixOf p.data then ⟨p.data.drop (base.length + 1)⟩
  else p

/-- Root part of Python `os.path.splitext(p)`: everything before the
extension, where the extension starts at the last dot of the final path
component unless that component consists only of leading dots up to it. -/
def splitextRoot (p : String) : String :=
  let cs := p.data
  let revBase := cs.reverse.takeWhile (fun c => c ≠ '/')
  let core := revBase.reverse.dropWhile (fun c => c = '.')
  if core.contains '.' then
    ⟨cs.take (cs.length - ((revBase.takeWhile (fun c => c ≠ '.')).length + 1))⟩
  else p

/-- The filesystem: a partial map from path strings to file contents. -/
def FS : Type := String → Option String

/-- Writing a file, overwriting whatever was at that path. -/
def fsWrite (fs : FS) (p c : String) : FS :=
  fun q => if q = p then some c else fs q

/-- Deleting a file. -/
def fsRemove (fs : FS) (p : String) : FS :=
  fun q => if q = p then none else fs q

/-- The empty filesystem. -/
def emptyFS : FS :=
  fun _ => none

/-- One timed segment of the transcription result; `stop` embeds the
source's `end` key (a Lean keyword). -/
structure Segment where
  start : ℚ
  stop : ℚ
  text : String

/-- Outcome of the external `model.transcribe(...)` call: either a result
dictionary (text plus ordered segments) or a raised exception. -/
inductive ModelOutcome where
  | ok (text : String) (segments : List Segment)
  | err (msg : String)

/-- The external model as an oracle from the input file path to the call
outcome; the fixed inference parameters (language, fp16, beam size,
best-of, temperature list) are absorbed into the oracle. -/
def Model : Type :=
  String → ModelOutcome

/-- The flat list of lines accumulated in `srt_lines` of `save_srt_file`,
starting at index `idx`: per segment the index line, the timing line and
the stripped text with a trailing newline. -/
def srtLinesFrom : Nat → List Segment → List String
  | _, [] => []
  | idx, seg :: rest =>
    (⟨natToDec idx⟩ : String) ::
      (format_timestamp seg.start ++ " --> " ++ format_timestamp seg.stop) ::
      (pyStrip seg.text ++ "\n") ::
      srtLinesFrom (idx + 1) rest

/-- Python `sep.join(lines)`. -/
def joinSep (sep : String) : List String → String
  | [] => ""
  | [x] => x
  | x :: y :: rest => x ++ sep ++ joinSep sep (y :: rest)

/-- The exact file contents written by `save_srt_file`:
`"\n".join(srt_lines)`. -/
def srtContent (segments : List Segment) : String :=
  joinSep "\n" (srtLinesFrom 1 segments)

/-- The informational report printed when there are no segments. -/
def srtInfoMsg : String :=
  "Нет сегментов для сохранения в формате SRT."

/-- The `save_srt_file` function: skips writing (with an informational
report) when the segment list is empty, otherwise writes the SRT file;
returns the filesystem and the printed log. -/
def save_srt_file (segments : List Segment) (srt_output_file : String) (fs : FS) :
    FS × List String :=
  if segments.isEmpty then (fs, [srtInfoMsg])
  else (fsWrite fs srt_output_file (srtContent segments),
    ["SRT транскрипция сохранена в " ++ srt_output_file])

/-- One subtitle block as the specification describes it: the 1-based
index line, the timing line `start --> end`, and the segment's trimmed
text. -/
def srtBlockSpec (idx : Nat) (seg : Segment) : String :=
  (⟨natToDec idx⟩ : String) ++ "\n" ++
    format_timestamp seg.start ++ " --> " ++ format_timestamp seg.stop ++ "\n" ++
    pyStrip seg.text

/-- The blocks of the specification's subtitle format, numbered from `idx`. -/
def srtBlocksSpecFrom : Nat → List Segment → List String
  | _, [] => []
  | idx, seg :: rest => srtBlockSpec idx seg :: srtBlocksSpecFrom (idx + 1) rest

/-- Subtitle file contents as the specification describes them: one block
per segment in order, blocks separated by blank lines, a final newline. -/
def srtContentSpec (segments : List Segment) : String :=
  joinSep "\n\n" (srtBlocksSpecFrom 1 segments) ++ "\n"

/-- The message of the exception re-raised by `transcribe_audio_to_text`
when the model call fails; it names the offending file. -/
def jobFailMsg (input_file : String) : String :=
  "Транскрипция для " ++ input_file ++ " не удалась."

/-- The report printed when deleting the consumed input file fails. -/
def delFailMsg (input_file : String) : String :=
  "Не удалось удалить аудиофайл " ++ input_file

/-- Result of one transcription job: the filesystem after the job, the
input paths on which the model was invoked, the printed log, and the
raised exception message if the job failed. -/
structure JobResult where
  fs : FS
  called : List String
  log : List String
  failed : Option String

/-- The `transcribe_audio_to_text` function of `transru-fp16-del-txt-srt.py`:
call the model (re-raising failures as a job failure naming the file),
normalize the transcript, write the `.txt` output, write the `.srt`
output next to it via `save_srt_file`, then delete the input file,
reporting but swallowing a deletion failure.  `removeFails` models the
environment making `os.remove` raise. -/
def transcribe_audio_to_text (model : Model) (removeFails : Bool)
    (input_file output_file : String) (fs : FS) : JobResult :=
  match model input_file with
  | ModelOutcome.err e =>
    { fs := fs
      called := [input_file]
      log := ["Ошибка при транскрипции файла " ++ input_file ++ ": " ++ e]
      failed := some (jobFailMsg input_file) }
  | ModelOutcome.ok text segments =>
    let transcription := pyStrip (replaceNewlineWithSpace text)
    let fs1 := fsWrite fs output_file (transcription ++ "\n")
    let srt_output_file := splitextRoot output_file ++ ".srt"
    let res := save_srt_file segments srt_output_file fs1
    if removeFails then
      { fs := res.1
        called := [input_file]
        log := res.2 ++ [delFailMsg input_file]
        failed := none }
    else
      { fs := fsRemove res.1 input_file
        called := [input_file]
        log := res.2 ++ ["Аудиофайл " ++ input_file ++ " удалён."]
        failed := none }

/-- The `transcribe_audio_to_text` function of
`transcribefp16ruundedelete.py`: identical except that no subtitle file
is produced. -/
def transcribe_audio_to_text_txt (model : Model) (removeFails : Bool)
    (input_file output_file : String) (fs : FS) : JobResult :=
  match model input_file with
  | ModelOutcome.err e =>
    { fs := fs
      called := [input_file]
      log := ["Ошибка при транскрипции файла " ++ input_file ++ ": " ++ e]
      failed := some (jobFailMsg input_file) }
  | ModelOutcome.ok text _segments =>
    let transcription := pyStrip (replaceNewlineWithSpace text)
    let fs1 := fsWrite fs output_file (transcription ++ "\n")
    if removeFails then
      { fs := fs1
        called := [input_file]
        log := [delFailMsg input_file]
        failed := none }
    else
      { fs := fsRemove fs1 input_file
        called := [input_file]
        log := ["Аудиофайл " ++ input_file ++ " удалён."]
        failed := none }

/-- State threaded through the batch run: the filesystem, the inputs the
model has been invoked on, and the printed log. -/
structure BatchState where
  fs : FS
  calls : List String
  log : List String

/-- A per-file job as the batch driver sees it: input path, output path,
filesystem in; both scripts' `transcribe_audio_to_text` have this shape
once the model and the deletion environment are fixed. -/
def Job : Type :=
  String → String → FS → JobResult

/-- The body of the driver's inner loop for one directory entry
`(root, file)`: filter on the lower-cased `.mp3` suffix, derive the
mirrored output path, run the job, and catch any job failure so that the
run continues. -/
def processEntry (job : Job) (input_folder output_folder : String)
    (root file : String) (st : BatchState) : BatchState :=
  if pyEndsWith (pyLower file) ".mp3" then
    let input_file := pyJoin root file
    let relative_path := pyRelpath root input_folder
    let output_dir := pyJoin output_folder relative_path
    let base_name := splitextRoot file
    let output_file := pyJoin output_dir (base_name ++ ".txt")
    let r := job input_file output_file st.fs
    match r.failed with
    | some e =>
      { fs := r.fs
        calls := st.calls ++ r.called
        log := st.log ++ r.log ++ ["Не удалось транскрибировать " ++ input_file ++ ": " ++ e] }
    | none =>
      { fs := r.fs
        calls := st.calls ++ r.called
        log := st.log ++ r.log }
  else st

/-- The driver's walk over all `(root, file)` entries of the input tree
(the flattening of the `os.walk` double loop), in order. -/
def processFiles (job : Job) (input_folder output_folder : String) :
    List (String × String) → BatchState → BatchState
  | [], st => st
  | (root, file) :: rest, st =>
    processFiles job input_folder output_folder rest
      (processEntry job input_folder output_folder root file st)

/-- The `batch_transcribe` run over a directory walk, with the program's
fixed folder constants `audio` and `result`. -/
def batch_transcribe (model : Model) (removeFails : Bool)
    (entries : List (String × String)) (st : BatchState) : BatchState :=
  processFiles (transcribe_audio_to_text model removeFails) "audio" "result" entries st

/-- Numeric value of a decimal digit character. -/
def digitVal (c : Char) : Nat :=
  c.toNat - 48

/-- Parser for the fixed-width `HH:MM:SS,mmm` timestamp format: accepts
exactly twelve characters with two-digit hour, minute and second fields
and a three-digit millisecond field, and returns the four components. -/
def parseTimestamp (t : String) : Option (Nat × Nat × Nat × Nat) :=
  match t.data with
  | [h1, h2, c1, m1, m2, c2, s1, s2, c3, d1, d2, d3] =>
    if c1 = ':' ∧ c2 = ':' ∧ c3 = ',' ∧ h1.isDigit ∧ h2.isDigit ∧ m1.isDigit ∧
        m2.isDigit ∧ s1.isDigit ∧ s2.isDigit ∧ d1.isDigit ∧ d2.isDigit ∧ d3.isDigit then
      some (10 * digitVal h1 + digitVal h2, 10 * digitVal m1 + digitVal m2,
        10 * digitVal s1 + digitVal s2,
        100 * digitVal d1 + 10 * digitVal d2 + digitVal d3)
    else none
  | _ => none

/-- The hours field of a formatted timestamp: everything before the first
colon. -/
def hoursField (t : String) : String :=
  ⟨t.data.takeWhile (fun c => c ≠ ':')⟩

/-- Value of a decimal digit string, most significant digit first. -/
def decVal (l : List Char) : Nat :=
  l.foldl (fun a c => 10 * a + digitVal c) 0

end Whisper

namespace Whisper

/-! ### Basic facts about the string primitives -/

theorem data_append (a b : String) : (a ++ b).data = a.data ++ b.data := rfl

theorem data_mk (l : List Char) : (String.mk l).data = l := rfl

theorem mk_data (s : String) : String.mk s.data = s := rfl

theorem string_eq_of_data {a b : String} (h : a.data = b.data) : a = b :=
  congrArg String.mk h

/-! ### Decimal rendering -/

theorem natToDecAux_fuel (n : Nat) : ∀ f g, n < f → n < g → natToDecAux f n = natToDecAux g n := by
  induction n using Nat.strong_induction_on with
  | _ n ih =>
    intro f g hf hg
    cases f with
    | zero => omega
    | succ f =>
      cases g with
      | zero => omega
      | succ g =>
        simp only [natToDecAux]
        by_cases h : n < 10
        · simp [h]
        · have hd : n / 10 < n := Nat.div_lt_self (by omega) (by omega)
          simp only [if_neg h]
          rw [ih (n / 10) hd f g (by omega) (by omega)]

theorem natToDec_eq (n : Nat) :
    natToDec n = if n < 10 then [Nat.digitChar n]
      else natToDec (n / 10) ++ [Nat.digitChar (n % 10)] := by
  by_cases h : n < 10
  · rw [if_pos h]
    show natToDecAux (n + 1) n = _
    simp only [natToDecAux]
    rw [if_pos h]
  · rw [if_neg h]
    show natToDecAux (n + 1) n = _
    simp only [natToDecAux, if_neg h]
    rw [natToDecAux_fuel (n / 10) n (n / 10 + 1) (Nat.div_lt_self (by omega) (by omega))
      (Nat.lt_succ_self _)]
    rfl

theorem natToDec_ne_nil (n : Nat) : natToDec n ≠ [] := by
  rw [natToDec_eq]
  by_cases h : n < 10 <;> simp [h]

theorem digitChar_isDigit : ∀ k, k < 10 → (Nat.digitChar k).isDigit = true := by decide

theorem digitVal_digitChar : ∀ k, k < 10 → digitVal (Nat.digitChar k) = k := by decide

theorem digitChar_ne_colon : ∀ k, k < 10 → Nat.digitChar k ≠ ':' := by decide

theorem natToDec_all_digit (n : Nat) : ∀ c ∈ natToDec n, c.isDigit = true := by
  induction n using Nat.strong_induction_on with
  | _ n ih =>
    rw [natToDec_eq]
    by_cases h : n < 10
    · simp only [if_pos h, List.mem_singleton]
      intro c hc
      exact hc ▸ digitChar_isDigit n h
    · simp only [if_neg h, List.mem_append, List.mem_singleton]
      intro c hc
      rcases hc with hc | hc
      · exact ih (n / 10) (Nat.div_lt_self (by omega) (by omega)) c hc
      · exact hc ▸ digitChar_isDigit (n % 10) (by omega)

theorem decVal_natToDec (n : Nat) : decVal (natToDec n) = n := by
  induction n using Nat.strong_induction_on with
  | _ n ih =>
    rw [natToDec_eq]
    by_cases h : n < 10
    · simp [h, decVal, digitVal_digitChar n h]
    · rw [if_neg h]
      have : decVal (natToDec (n / 10) ++ [Nat.digitChar (n % 10)]) =
          10 * decVal (natToDec (n / 10)) + digitVal (Nat.digitChar (n % 10)) := by
        simp [decVal]
      rw [this, ih (n / 10) (Nat.div_lt_self (by omega) (by omega)),
        digitVal_digitChar (n % 10) (by omega)]
      omega

theorem natToDec_three_len (n : Nat) (h : 100 ≤ n) : 3 ≤ (natToDec n).length := by
  rw [natToDec_eq, if_neg (by omega)]
  rw [natToDec_eq (n / 10), if_neg (by omega)]
  have h1 : 1 ≤ (natToDec (n / 10 / 10)).length :=
    List.length_pos.mpr (natToDec_ne_nil (n / 10 / 10))
  simp only [List.length_append, List.length_cons, List.length_nil]
  omega

set_option maxRecDepth 8000 in
theorem zfill_two_natToDec :
    ∀ n, n < 100 → zfillL 2 (natToDec n) = [Nat.digitChar (n / 10), Nat.digitChar (n % 10)] := by
  decide

set_option maxRecDepth 8000 in
theorem zfill_three_natToDec :
    ∀ n, n < 1000 → zfillL 3 (natToDec n) =
      [Nat.digitChar (n / 100), Nat.digitChar (n / 10 % 10), Nat.digitChar (n % 10)] := by
  decide

theorem intPad_two (n : ℤ) (h0 : 0 ≤ n) (h : n < 100) :
    (intPad 2 n).data = [Nat.digitChar (n.toNat / 10), Nat.digitChar (n.toNat % 10)] := by
  unfold intPad
  rw [if_neg (by omega), data_mk, show n.natAbs = n.toNat by omega]
  exact zfill_two_natToDec n.toNat (by omega)

theorem intPad_three (n : ℤ) (h0 : 0 ≤ n) (h : n < 1000) :
    (intPad 3 n).data =
      [Nat.digitChar (n.toNat / 100), Nat.digitChar (n.toNat / 10 % 10),
        Nat.digitChar (n.toNat % 10)] := by
  unfold intPad
  rw [if_neg (by omega), data_mk, show n.natAbs = n.toNat by omega]
  exact zfill_three_natToDec n.toNat (by omega)

/-! ### Python numeric primitives -/

theorem pyTrunc_intCast (k : ℤ) : pyTrunc (k : ℚ) = k := by
  unfold pyTrunc
  by_cases h : (0 : ℚ) ≤ (k : ℚ)
  · rw [if_pos h, Int.floor_intCast]
  · rw [if_neg h, show -(k : ℚ) = ((-k : ℤ) : ℚ) by push_cast; ring, Int.floor_intCast]
    ring

theorem pyTrunc_nonneg_eq_floor (x : ℚ) (h : 0 ≤ x) : pyTrunc x = ⌊x⌋ := by
  unfold pyTrunc
  rw [if_pos h]

theorem pyMod_eq_fract (a b : ℚ) (hb : b ≠ 0) : pyMod a b = b * Int.fract (a / b) := by
  unfold pyMod Int.fract
  rw [mul_sub, mul_div_cancel₀ a hb]

theorem pyMod_nonneg (a b : ℚ) (hb : 0 < b) : 0 ≤ pyMod a b := by
  rw [pyMod_eq_fract a b hb.ne.symm]
  exact mul_nonneg hb.le (Int.fract_nonneg _)

theorem pyMod_lt (a b : ℚ) (hb : 0 < b) : pyMod a b < b := by
  rw [pyMod_eq_fract a b hb.ne.symm]
  calc b * Int.fract (a / b) < b * 1 :=
        mul_lt_mul_of_pos_left (Int.fract_lt_one _) hb
    _ = b := mul_one b

theorem fmtHours_eq (s : ℚ) : fmtHours s = ⌊s / 3600⌋ := by
  unfold fmtHours pyFloorDiv
  exact pyTrunc_intCast _

theorem fmtMinutes_eq (s : ℚ) : fmtMinutes s = ⌊pyMod s 3600 / 60⌋ := by
  unfold fmtMinutes pyFloorDiv
  exact pyTrunc_intCast _

theorem fmtSecs_eq (s : ℚ) : fmtSecs s = ⌊pyMod s 60⌋ := by
  unfold fmtSecs
  exact pyTrunc_nonneg_eq_floor _ (pyMod_nonneg s 60 (by norm_num))

theorem fmtMillis_eq (s : ℚ) (h : 0 ≤ s) : fmtMillis s = ⌊(s - ⌊s⌋) * 1000⌋ := by
  unfold fmtMillis
  rw [pyTrunc_nonneg_eq_floor s h]
  apply pyTrunc_nonneg_eq_floor
  have hf : (0 : ℚ) ≤ s - ⌊s⌋ := by
    have := Int.floor_le s
    linarith
  positivity

theorem fmtMinutes_bounds (s : ℚ) : 0 ≤ fmtMinutes s ∧ fmtMinutes s < 60 := by
  rw [fmtMinutes_eq]
  constructor
  · exact Int.floor_nonneg.mpr (div_nonneg (pyMod_nonneg s 3600 (by norm_num)) (by norm_num))
  · rw [Int.floor_lt]
    rw [div_lt_iff₀ (by norm_num : (0:ℚ) < 60)]
    have := pyMod_lt s 3600 (by norm_num)
    push_cast
    linarith

theorem fmtSecs_bounds (s : ℚ) : 0 ≤ fmtSecs s ∧ fmtSecs s < 60 := by
  rw [fmtSecs_eq]
  constructor
  · exact Int.floor_nonneg.mpr (pyMod_nonneg s 60 (by norm_num))
  · rw [Int.floor_lt]
    have := pyMod_lt s 60 (by norm_num)
    push_cast
    linarith

theorem fmtMillis_bounds (s : ℚ) (h : 0 ≤ s) : 0 ≤ fmtMillis s ∧ fmtMillis s < 1000 := by
  rw [fmtMillis_eq s h]
  have hf0 : (0 : ℚ) ≤ s - ⌊s⌋ := by
    have := Int.floor_le s
    linarith
  have hf1 : (s : ℚ) - ⌊s⌋ < 1 := by
    have := Int.lt_floor_add_one s
    linarith
  constructor
  · exact Int.floor_nonneg.mpr (by positivity)
  · rw [Int.floor_lt]
    push_cast
    nlinarith

end Whisper

namespace Whisper

/-! ### Parsing the fixed-width timestamp format -/

theorem parseTimestamp_digits (hh mm ss ms : ℕ)
    (h1 : hh < 100) (h2 : mm < 100) (h3 : ss < 100) (h4 : ms < 1000) :
    parseTimestamp ⟨[Nat.digitChar (hh / 10), Nat.digitChar (hh % 10), ':',
      Nat.digitChar (mm / 10), Nat.digitChar (mm % 10), ':',
      Nat.digitChar (ss / 10), Nat.digitChar (ss % 10), ',',
      Nat.digitChar (ms / 100), Nat.digitChar (ms / 10 % 10), Nat.digitChar (ms % 10)]⟩ =
      some (hh, mm, ss, ms) := by
  simp only [parseTimestamp, data_mk]
  rw [if_pos]
  · simp only [Option.some.injEq, Prod.mk.injEq]
    rw [digitVal_digitChar (hh / 10) (by omega), digitVal_digitChar (hh % 10) (by omega),
      digitVal_digitChar (mm / 10) (by omega), digitVal_digitChar (mm % 10) (by omega),
      digitVal_digitChar (ss / 10) (by omega), digitVal_digitChar (ss % 10) (by omega),
      digitVal_digitChar (ms / 100) (by omega), digitVal_digitChar (ms / 10 % 10) (by omega),
      digitVal_digitChar (ms % 10) (by omega)]
    refine ⟨by omega, by omega, by omega, by omega⟩
  · refine ⟨?_, ?_, ?_, ?_, ?_, ?_, ?_, ?_, ?_, ?_, ?_, ?_⟩ <;>
      first
      | trivial
      | exact digitChar_isDigit _ (by omega)

theorem format_timestamp_data (s : ℚ) :
    (format_timestamp s).data =
      (intPad 2 (fmtHours s)).data ++ ':' :: ((intPad 2 (fmtMinutes s)).data ++
        ':' :: ((intPad 2 (fmtSecs s)).data ++ ',' :: (intPad 3 (fmtMillis s)).data)) := by
  simp only [format_timestamp, data_append]
  simp [show (":" : String).data = [':'] from rfl, show ("," : String).data = [','] from rfl]

/-- C1: for `s` in `[0, 3600)`, `format_timestamp s` is a twelve-character
`HH:MM:SS,mmm` string with two/two/two/three-digit zero-padded fields;
parsing it back recovers exactly the integer hour, minute, second and
millisecond components the code computes, the hour being `0`, the minute
`⌊s / 60⌋`, the second `⌊s⌋ - 60 * ⌊s / 60⌋`, and the millisecond the
truncation (floor) `⌊(s - ⌊s⌋) * 1000⌋` of the scaled fractional part. -/
theorem format_timestamp_roundtrip (s : ℚ) (h0 : 0 ≤ s) (h1 : s < 3600) :
    parseTimestamp (format_timestamp s) =
      some ((fmtHours s).toNat, (fmtMinutes s).toNat, (fmtSecs s).toNat, (fmtMillis s).toNat) ∧
    fmtHours s = 0 ∧
    fmtMinutes s = ⌊s / 60⌋ ∧
    fmtSecs s = ⌊s⌋ - 60 * ⌊s / 60⌋ ∧
    fmtMillis s = ⌊(s - ⌊s⌋) * 1000⌋ ∧
    (format_timestamp s).length = 12 := by
  have hfloor0 : (⌊s / 3600⌋ : ℤ) = 0 := by
    apply Int.floor_eq_zero_iff.mpr
    constructor
    · exact div_nonneg h0 (by norm_num)
    · rw [div_lt_one (by norm_num : (0:ℚ) < 3600)]
      exact h1
  have hH : fmtHours s = 0 := by rw [fmtHours_eq, hfloor0]
  have hmod : pyMod s 3600 = s := by
    unfold pyMod
    rw [hfloor0]
    push_cast
    ring
  have hM : fmtMinutes s = ⌊s / 60⌋ := by rw [fmtMinutes_eq, hmod]
  have hS : fmtSecs s = ⌊s⌋ - 60 * ⌊s / 60⌋ := by
    rw [fmtSecs_eq]
    unfold pyMod
    rw [show s - 60 * ((⌊s / 60⌋ : ℤ) : ℚ) = s - ((60 * ⌊s / 60⌋ : ℤ) : ℚ) by push_cast; ring,
      Int.floor_sub_int]
  have hMs : fmtMillis s = ⌊(s - ⌊s⌋) * 1000⌋ := fmtMillis_eq s h0
  have hHb : 0 ≤ fmtHours s ∧ fmtHours s < 100 := by rw [hH]; omega
  have hMb := fmtMinutes_bounds s
  have hSb := fmtSecs_bounds s
  have hMsb := fmtMillis_bounds s h0
  have hdata : (format_timestamp s).data =
      [Nat.digitChar ((fmtHours s).toNat / 10), Nat.digitChar ((fmtHours s).toNat % 10), ':',
        Nat.digitChar ((fmtMinutes s).toNat / 10), Nat.digitChar ((fmtMinutes s).toNat % 10), ':',
        Nat.digitChar ((fmtSecs s).toNat / 10), Nat.digitChar ((fmtSecs s).toNat % 10), ',',
        Nat.digitChar ((fmtMillis s).toNat / 100), Nat.digitChar ((fmtMillis s).toNat / 10 % 10),
        Nat.digitChar ((fmtMillis s).toNat % 10)] := by
    rw [format_timestamp_data s, intPad_two _ hHb.1 hHb.2,
      intPad_two _ hMb.1 (by omega), intPad_two _ hSb.1 (by omega),
      intPad_three _ hMsb.1 hMsb.2]
    rfl
  refine ⟨?_, hH, hM, hS, hMs, ?_⟩
  · have := parseTimestamp_digits (fmtHours s).toNat (fmtMinutes s).toNat (fmtSecs s).toNat
      (fmtMillis s).toNat (by omega) (by omega) (by omega) (by omega)
    rw [show parseTimestamp (format_timestamp s) =
      parseTimestamp ⟨(format_timestamp s).data⟩ by rw [mk_data]]
    rw [hdata]
    exact this
  · show (format_timestamp s).data.length = 12
    rw [hdata]
    rfl

/-- Witness for C1 at the specification's example input `125.4567`. -/
theorem format_timestamp_roundtrip_witness :
    ((0 : ℚ) ≤ 125.4567 ∧ (125.4567 : ℚ) < 3600) ∧
    format_timestamp (125.4567 : ℚ) = "00:02:05,456" ∧
    parseTimestamp (format_timestamp (125.4567 : ℚ)) = some (0, 2, 5, 456) := by
  refine ⟨⟨by decide, by decide⟩, by decide, ?_⟩
  rw [(format_timestamp_roundtrip (125.4567 : ℚ) (by decide) (by decide)).1]
  decide

end Whisper

namespace Whisper

/-! ### Hours field behaviour outside the two-digit range -/

theorem isDigit_ne_colon (c : Char) (h : c.isDigit = true) : c ≠ ':' := by
  intro hc
  rw [hc] at h
  exact absurd h (by decide)

theorem takeWhile_ne_colon_append (l rest : List Char)
    (hl : ∀ c ∈ l, c.isDigit = true) :
    (l ++ ':' :: rest).takeWhile (fun c => c ≠ ':') = l := by
  rw [List.takeWhile_append_of_pos]
  · rw [List.takeWhile_cons_of_neg]
    · exact List.append_nil l
    · simp
  · intro x hx
    simp [isDigit_ne_colon x (hl x hx)]

theorem intPad_two_of_large (n : ℤ) (h : 100 ≤ n) :
    (intPad 2 n).data = natToDec n.toNat := by
  unfold intPad
  rw [if_neg (by omega), data_mk, show n.natAbs = n.toNat by omega]
  unfold zfillL
  have hlen : 3 ≤ (natToDec n.toNat).length := natToDec_three_len n.toNat (by omega)
  rw [show 2 - (natToDec n.toNat).length = 0 by omega, List.replicate_zero, List.nil_append]

/-- C10: `format_timestamp` is total on non-negative seconds, and beyond
100 hours the hours field silently widens: for `s ≥ 360000` it is the
full (three-or-more digit) decimal numeral of `⌊s / 3600⌋` — neither
truncated nor wrapped nor an error — while for `0 ≤ s < 360000` it keeps
its fixed two-character width. -/
theorem format_timestamp_hours_widen :
    (∀ s : ℚ, 360000 ≤ s →
      3 ≤ (hoursField (format_timestamp s)).data.length ∧
      (∀ c ∈ (hoursField (format_timestamp s)).data, c.isDigit = true) ∧
      decVal (hoursField (format_timestamp s)).data = (fmtHours s).toNat ∧
      fmtHours s = ⌊s / 3600⌋) ∧
    (∀ s : ℚ, 0 ≤ s → s < 360000 → (hoursField (format_timestamp s)).data.length = 2) := by
  constructor
  · intro s hs
    have hH : fmtHours s = ⌊s / 3600⌋ := fmtHours_eq s
    have hge : 100 ≤ fmtHours s := by
      rw [hH]
      exact Int.le_floor.mpr (by rw [le_div_iff₀ (by norm_num : (0:ℚ) < 3600)]; push_cast; linarith)
    have hdata : (hoursField (format_timestamp s)).data = natToDec (fmtHours s).toNat := by
      show ((format_timestamp s).data.takeWhile (fun c => c ≠ ':')) = _
      rw [format_timestamp_data s, intPad_two_of_large _ hge]
      exact takeWhile_ne_colon_append _ _ (natToDec_all_digit (fmtHours s).toNat)
    rw [hdata]
    refine ⟨natToDec_three_len _ (by omega), natToDec_all_digit _, decVal_natToDec _, hH⟩
  · intro s h0 h1
    have hH : fmtHours s = ⌊s / 3600⌋ := fmtHours_eq s
    have hb : 0 ≤ fmtHours s ∧ fmtHours s < 100 := by
      rw [hH]
      constructor
      · exact Int.floor_nonneg.mpr (div_nonneg h0 (by norm_num))
      · rw [Int.floor_lt]
        rw [div_lt_iff₀ (by norm_num : (0:ℚ) < 3600)]
        push_cast
        linarith
    have hdata : (hoursField (format_timestamp s)).data =
        [Nat.digitChar ((fmtHours s).toNat / 10), Nat.digitChar ((fmtHours s).toNat % 10)] := by
      show ((format_timestamp s).data.takeWhile (fun c => c ≠ ':')) = _
      rw [format_timestamp_data s, intPad_two _ hb.1 hb.2]
      apply takeWhile_ne_colon_append
      intro c hc
      simp only [List.mem_cons, List.not_mem_nil, or_false] at hc
      rcases hc with hc | hc
      · exact hc ▸ digitChar_isDigit _ (by omega)
      · exact hc ▸ digitChar_isDigit _ (by omega)
    rw [hdata]
    rfl

/-- Witness for C10 at `s = 360000` (exactly 100 hours) and, for the
two-digit side, at the example input `125.4567`. -/
theorem format_timestamp_hours_widen_witness :
    ((360000 : ℚ) ≤ 360000 ∧
      hoursField (format_timestamp (360000 : ℚ)) = "100" ∧
      decVal (hoursField (format_timestamp (360000 : ℚ))).data = 100) ∧
    ((0 : ℚ) ≤ 125.4567 ∧ (125.4567 : ℚ) < 360000 ∧
      (hoursField (format_timestamp (125.4567 : ℚ))).data.length = 2) := by
  constructor
  · refine ⟨by decide, by decide, ?_⟩
    rw [(format_timestamp_hours_widen.1 (360000 : ℚ) (by decide)).2.2.1]
    decide
  · exact ⟨by decide, by decide,
      format_timestamp_hours_widen.2 (125.4567 : ℚ) (by decide) (by decide)⟩

/-! ### Subtitle file contents -/

theorem nl_nl_append (t : String) : ("\n" : String) ++ ("\n" ++ t) = "\n\n" ++ t := by
  rw [← String.append_assoc]
  rfl

theorem srt_content_spec_from (segments : List Segment) : ∀ idx, segments ≠ [] →
    joinSep "\n" (srtLinesFrom idx segments) =
      joinSep "\n\n" (srtBlocksSpecFrom idx segments) ++ "\n" := by
  induction segments with
  | nil => intro idx h; exact absurd rfl h
  | cons seg rest ih =>
    intro idx _
    cases rest with
    | nil =>
      show (⟨natToDec idx⟩ : String) ++ "\n" ++
          ((format_timestamp seg.start ++ " --> " ++ format_timestamp seg.stop) ++ "\n" ++
            (pyStrip seg.text ++ "\n")) = _
      simp [srtBlocksSpecFrom, joinSep, srtBlockSpec, String.append_assoc]
    | cons seg2 rest2 =>
      have hih := ih (idx + 1) (by simp)
      have e1 : joinSep "\n" (srtLinesFrom idx (seg :: seg2 :: rest2)) =
          (⟨natToDec idx⟩ : String) ++ "\n" ++
            ((format_timestamp seg.start ++ " --> " ++ format_timestamp seg.stop) ++ "\n" ++
              ((pyStrip seg.text ++ "\n") ++ "\n" ++
                joinSep "\n" (srtLinesFrom (idx + 1) (seg2 :: rest2)))) := rfl
      have e2 : joinSep "\n\n" (srtBlocksSpecFrom idx (seg :: seg2 :: rest2)) =
          srtBlockSpec idx seg ++ "\n\n" ++
            joinSep "\n\n" (srtBlocksSpecFrom (idx + 1) (seg2 :: rest2)) := rfl
      rw [e1, e2, hih, srtBlockSpec]
      simp [String.append_assoc, nl_nl_append]

/-- C2: on a non-empty segment sequence `save_srt_file` writes, at the
given path, exactly the specification's block list — per segment, in
order, the 1-based index line, the `start --> end` timing line and the
trimmed text, blocks separated by blank lines — and on the
specification's two-segment example the written bytes are exactly the
expected string. -/
theorem save_srt_blocks :
    (∀ (segments : List Segment) (path : String) (fs : FS), segments ≠ [] →
      (save_srt_file segments path fs).1 path = some (srtContent segments) ∧
      srtContent segments = srtContentSpec segments) ∧
    srtContent [⟨0, 1.5, "hello"⟩, ⟨1.5, 3, "world"⟩] =
      "1\n00:00:00,000 --> 00:00:01,500\nhello\n\n2\n00:00:01,500 --> 00:00:03,000\nworld\n" := by
  constructor
  · intro segments path fs hne
    constructor
    · unfold save_srt_file
      rw [if_neg (by simp [hne])]
      show fsWrite fs path (srtContent segments) path = _
      simp [fsWrite]
    · exact srt_content_spec_from segments 1 hne
  · decide

/-- Witness for C2 at the specification's example segments. -/
theorem save_srt_blocks_witness :
    ([⟨0, 1.5, "hello"⟩, ⟨1.5, 3, "world"⟩] : List Segment) ≠ [] ∧
    (save_srt_file [⟨0, 1.5, "hello"⟩, ⟨1.5, 3, "world"⟩] "result/a.srt" emptyFS).1 "result/a.srt" =
      some "1\n00:00:00,000 --> 00:00:01,500\nhello\n\n2\n00:00:01,500 --> 00:00:03,000\nworld\n" := by
  refine ⟨by simp, ?_⟩
  rw [(save_srt_blocks.1 [⟨0, 1.5, "hello"⟩, ⟨1.5, 3, "world"⟩] "result/a.srt" emptyFS
    (by simp)).1]
  decide

/-- C9: subtitle generation is deterministic and idempotent — running the
writer a second time on the identical segment input (over the filesystem
the first run produced) yields exactly the filesystem of the first run,
the second write overwriting the file with the same bytes. -/
theorem srt_write_idempotent (segments : List Segment) (path : String) (fs : FS) :
    (save_srt_file segments path (save_srt_file segments path fs).1).1 =
      (save_srt_file segments path fs).1 := by
  unfold save_srt_file
  by_cases h : segments.isEmpty
  · simp [h]
  · simp only [Bool.not_eq_true] at h
    simp only [h, Bool.false_eq_true, if_false]
    funext q
    unfold fsWrite
    by_cases hq : q = path <;> simp [hq]

/-- C6: called with an empty segment sequence the subtitle writer leaves
the filesystem unchanged, reports only the informational no-segments
message, and returns normally. -/
theorem empty_segments_no_write (path : String) (fs : FS) :
    (save_srt_file [] path fs).1 = fs ∧ (save_srt_file [] path fs).2 = [srtInfoMsg] :=
  ⟨rfl, rfl⟩

end Whisper

namespace Whisper

/-! ### Transcription adapter and batch-driver behaviour -/

theorem save_srt_fst_apply_ne (segments : List Segment) (p q : String) (fs : FS)
    (h : q ≠ p) : (save_srt_file segments p fs).1 q = fs q := by
  unfold save_srt_file
  by_cases he : segments.isEmpty <;> simp [he, fsWrite, h]

theorem save_srt_fst_apply_self (segments : List Segment) (p : String) (fs : FS)
    (h : segments ≠ []) : (save_srt_file segments p fs).1 p = some (srtContent segments) := by
  unfold save_srt_file
  rw [if_neg (by simp [h])]
  simp [fsWrite]

theorem transcribe_called (model : Model) (removeFails : Bool)
    (input_file output_file : String) (fs : FS) :
    (transcribe_audio_to_text model removeFails input_file output_file fs).called =
      [input_file] := by
  unfold transcribe_audio_to_text
  cases hm : model input_file <;> cases removeFails <;> simp [hm]

theorem mem_pyStrip {c : Char} {t : String} (h : c ∈ (pyStrip t).data) : c ∈ t.data := by
  unfold pyStrip at h
  rw [data_mk, List.mem_reverse] at h
  have h2 := (List.dropWhile_sublist isPySpace).subset h
  rw [List.mem_reverse] at h2
  exact (List.dropWhile_sublist isPySpace).subset h2

theorem replaceNewline_no_newline (t : String) :
    ∀ c ∈ (replaceNewlineWithSpace t).data, c ≠ '\n' := by
  unfold replaceNewlineWithSpace
  rw [data_mk]
  intro c hc
  rcases List.mem_map.mp hc with ⟨a, _, rfl⟩
  by_cases h : a = '\n' <;> simp [h]

/-- C8: a successful job writes, as the `.txt` output (in both scripts),
exactly the model transcript with every newline replaced by a space and
the ends stripped plus one trailing newline, and that body contains no
newline character. -/
theorem transcript_single_line (model : Model) (removeFails : Bool)
    (input_file output_file : String) (fs : FS) (text : String) (segments : List Segment)
    (hm : model input_file = ModelOutcome.ok text segments)
    (hsrt : splitextRoot output_file ++ ".srt" ≠ output_file)
    (hio : input_file ≠ output_file) :
    (transcribe_audio_to_text model removeFails input_file output_file fs).fs output_file =
      some (pyStrip (replaceNewlineWithSpace text) ++ "\n") ∧
    (transcribe_audio_to_text_txt model removeFails input_file output_file fs).fs output_file =
      some (pyStrip (replaceNewlineWithSpace text) ++ "\n") ∧
    ∀ c ∈ (pyStrip (replaceNewlineWithSpace text)).data, c ≠ '\n' := by
  refine ⟨?_, ?_, ?_⟩
  · simp only [transcribe_audio_to_text, hm]
    cases removeFails
    · simp only [Bool.false_eq_true, if_false]
      show fsRemove (save_srt_file segments _ _).1 input_file output_file = _
      unfold fsRemove
      rw [if_neg (fun hq => hio hq.symm),
        save_srt_fst_apply_ne _ _ _ _ (fun hq => hsrt hq.symm)]
      simp [fsWrite]
    · simp only [if_true]
      show (save_srt_file segments _ _).1 output_file = _
      rw [save_srt_fst_apply_ne _ _ _ _ (fun hq => hsrt hq.symm)]
      simp [fsWrite]
  · simp only [transcribe_audio_to_text_txt, hm]
    cases removeFails
    · simp only [Bool.false_eq_true, if_false]
      show fsRemove (fsWrite fs output_file _) input_file output_file = _
      unfold fsRemove
      rw [if_neg (fun hq => hio hq.symm)]
      simp [fsWrite]
    · simp only [if_true]
      show fsWrite fs output_file _ output_file = _
      simp [fsWrite]
  · intro c hc
    exact replaceNewline_no_newline text c (mem_pyStrip hc)

/-- Witness for C8 on a two-line transcript. -/
theorem transcript_single_line_witness :
    (fun _ : String => ModelOutcome.ok "line1\nline2" []) "audio/a.mp3" =
      ModelOutcome.ok "line1\nline2" [] ∧
    (transcribe_audio_to_text (fun _ => ModelOutcome.ok "line1\nline2" []) false
      "audio/a.mp3" "result/a.txt" emptyFS).fs "result/a.txt" = some "line1 line2\n" ∧
    pyStrip (replaceNewlineWithSpace "line1\nline2") = "line1 line2" := by
  have h := transcript_single_line (fun _ => ModelOutcome.ok "line1\nline2" []) false
    "audio/a.mp3" "result/a.txt" emptyFS "line1\nline2" [] rfl (by decide) (by decide)
  refine ⟨rfl, ?_, by decide⟩
  rw [h.1]
  decide

/-- C4: when the model call fails, the job performs no write and no
deletion (the filesystem is returned untouched), the failure is re-raised
as a job-level message that contains the offending input path, and the
batch driver consumes the entry and continues with the remaining files,
its filesystem unchanged by the failing entry. -/
theorem model_failure_no_side_effects (model : Model) (removeFails : Bool)
    (input_file output_file : String) (fs : FS) (e : String)
    (hm : model input_file = ModelOutcome.err e) :
    (transcribe_audio_to_text model removeFails input_file output_file fs).fs = fs ∧
    (transcribe_audio_to_text model removeFails input_file output_file fs).failed =
      some (jobFailMsg input_file) ∧
    input_file.data <:+: (jobFailMsg input_file).data ∧
    ∀ (root file : String) (rest : List (String × String)) (st : BatchState)
      (input_folder output_folder : String),
      ∃ st' : BatchState,
        processFiles (transcribe_audio_to_text model removeFails) input_folder output_folder
            ((root, file) :: rest) st =
          processFiles (transcribe_audio_to_text model removeFails) input_folder output_folder
            rest st' ∧
        (pyJoin root file = input_file → st'.fs = st.fs) := by
  refine ⟨by simp [transcribe_audio_to_text, hm], by simp [transcribe_audio_to_text, hm],
    ⟨("Транскрипция для " : String).data, (" не удалась." : String).data, by
      simp [jobFailMsg, data_append]⟩, ?_⟩
  intro root file rest st input_folder output_folder
  refine ⟨processEntry (transcribe_audio_to_text model removeFails) input_folder output_folder
    root file st, rfl, ?_⟩
  intro hj
  unfold processEntry
  by_cases hf : pyEndsWith (pyLower file) ".mp3"
  · simp only [hf, if_true, hj, transcribe_audio_to_text, hm]
  · simp [hf]

/-- Witness for C4 on a one-file batch whose model call raises. -/
theorem model_failure_no_side_effects_witness :
    (fun _ : String => ModelOutcome.err "boom") "audio/a.mp3" = ModelOutcome.err "boom" ∧
    (transcribe_audio_to_text (fun _ => ModelOutcome.err "boom") false
      "audio/a.mp3" "result/a.txt" emptyFS).fs = emptyFS ∧
    (transcribe_audio_to_text (fun _ => ModelOutcome.err "boom") false
      "audio/a.mp3" "result/a.txt" emptyFS).failed = some (jobFailMsg "audio/a.mp3") := by
  have h := model_failure_no_side_effects (fun _ => ModelOutcome.err "boom") false
    "audio/a.mp3" "result/a.txt" emptyFS "boom" rfl
  exact ⟨rfl, h.1, h.2.1⟩

/-- C5: the driver's loop body skips, unchanged in every observable way,
any entry whose filename does not end case-insensitively in `.mp3` — it
neither invokes the model nor touches the filesystem — and for any
filename that does (in any letter case) it invokes the model on exactly
that joined input path. -/
theorem extension_filter :
    (∀ (job : Job) (input_folder output_folder root file : String) (st : BatchState),
      pyEndsWith (pyLower file) ".mp3" = false →
      processEntry job input_folder output_folder root file st = st) ∧
    (∀ (model : Model) (removeFails : Bool)
      (input_folder output_folder root file : String) (st : BatchState),
      pyEndsWith (pyLower file) ".mp3" = true →
      (processEntry (transcribe_audio_to_text model removeFails) input_folder output_folder
          root file st).calls = st.calls ++ [pyJoin root file]) := by
  constructor
  · intro job input_folder output_folder root file st h
    simp [processEntry, h]
  · intro model removeFails input_folder output_folder root file st h
    unfold processEntry
    rw [if_pos h]
    rcases hfo : (transcribe_audio_to_text model removeFails (pyJoin root file)
      (pyJoin (pyJoin output_folder (pyRelpath root input_folder))
        (splitextRoot file ++ ".txt")) st.fs).failed with _ | e <;>
      simp [hfo, transcribe_called]

/-- Witness for C5: a `.wav` file is skipped untouched and a `.MP3` file
(upper case) is selected and passed to the model. -/
theorem extension_filter_witness :
    (pyEndsWith (pyLower "a.wav") ".mp3" = false ∧
      processEntry (transcribe_audio_to_text (fun _ => ModelOutcome.ok "" []) false)
        "audio" "result" "audio" "a.wav" ⟨emptyFS, [], []⟩ = ⟨emptyFS, [], []⟩) ∧
    (pyEndsWith (pyLower "A.MP3") ".mp3" = true ∧
      (processEntry (transcribe_audio_to_text (fun _ => ModelOutcome.ok "" []) false)
        "audio" "result" "audio" "A.MP3" ⟨emptyFS, [], []⟩).calls = ["audio/A.MP3"]) := by
  refine ⟨⟨by decide, extension_filter.1 _ "audio" "result" "audio" "a.wav" _ (by decide)⟩,
    ⟨by decide, ?_⟩⟩
  rw [extension_filter.2 (fun _ => ModelOutcome.ok "" []) false "audio" "result" "audio"
    "A.MP3" ⟨emptyFS, [], []⟩ (by decide)]
  decide

/-- C7: when the outputs were written but deleting the input fails, the
job still succeeds (no exception is recorded for the driver to catch),
the written text and subtitle outputs are in place, every other path —
the input file in particular — is untouched, and the deletion failure is
reported in the log; in both scripts. -/
theorem deletion_failure_job_succeeds (model : Model) (input_file output_file : String)
    (fs : FS) (text : String) (segments : List Segment)
    (hm : model input_file = ModelOutcome.ok text segments)
    (hsrt : splitextRoot output_file ++ ".srt" ≠ output_file) :
    (transcribe_audio_to_text model true input_file output_file fs).failed = none ∧
    (transcribe_audio_to_text model true input_file output_file fs).fs output_file =
      some (pyStrip (replaceNewlineWithSpace text) ++ "\n") ∧
    (segments ≠ [] →
      (transcribe_audio_to_text model true input_file output_file fs).fs
        (splitextRoot output_file ++ ".srt") = some (srtContent segments)) ∧
    (∀ p, p ≠ output_file → p ≠ splitextRoot output_file ++ ".srt" →
      (transcribe_audio_to_text model true input_file output_file fs).fs p = fs p) ∧
    delFailMsg input_file ∈ (transcribe_audio_to_text model true input_file output_file fs).log ∧
    (transcribe_audio_to_text_txt model true input_file output_file fs).failed = none ∧
    (transcribe_audio_to_text_txt model true input_file output_file fs).fs output_file =
      some (pyStrip (replaceNewlineWithSpace text) ++ "\n") ∧
    (∀ p, p ≠ output_file →
      (transcribe_audio_to_text_txt model true input_file output_file fs).fs p = fs p) ∧
    delFailMsg input_file ∈ (transcribe_audio_to_text_txt model true input_file output_file fs).log := by
  simp only [transcribe_audio_to_text, transcribe_audio_to_text_txt, hm, if_true]
  refine ⟨by trivial, ?_, ?_, ?_, by simp, by trivial, by simp [fsWrite], ?_, by simp⟩
  · show (save_srt_file segments _ _).1 output_file = _
    rw [save_srt_fst_apply_ne _ _ _ _ (fun hq => hsrt hq.symm)]
    simp [fsWrite]
  · intro hne
    show (save_srt_file segments _ _).1 _ = _
    exact save_srt_fst_apply_self segments _ _ hne
  · intro p hp1 hp2
    show (save_srt_file segments _ _).1 p = _
    rw [save_srt_fst_apply_ne _ _ _ _ hp2]
    simp [fsWrite, hp1]
  · intro p hp
    show fsWrite fs output_file _ p = _
    simp [fsWrite, hp]

/-- Witness for C7: the input file is still present, with its original
contents, after a job whose deletion failed; the outputs are in place and
no failure is recorded. -/
theorem deletion_failure_job_succeeds_witness :
    (fun _ : String => ModelOutcome.ok " hi " ([⟨0, 1, "a"⟩] : List Segment)) "audio/a.mp3" =
      ModelOutcome.ok " hi " [⟨0, 1, "a"⟩] ∧
    (transcribe_audio_to_text (fun _ => ModelOutcome.ok " hi " [⟨0, 1, "a"⟩]) true
      "audio/a.mp3" "result/a.txt" (fsWrite emptyFS "audio/a.mp3" "AUDIO")).failed = none ∧
    (transcribe_audio_to_text (fun _ => ModelOutcome.ok " hi " [⟨0, 1, "a"⟩]) true
      "audio/a.mp3" "result/a.txt" (fsWrite emptyFS "audio/a.mp3" "AUDIO")).fs
        "result/a.txt" = some "hi\n" ∧
    (transcribe_audio_to_text (fun _ => ModelOutcome.ok " hi " [⟨0, 1, "a"⟩]) true
      "audio/a.mp3" "result/a.txt" (fsWrite emptyFS "audio/a.mp3" "AUDIO")).fs
        "audio/a.mp3" = some "AUDIO" := by
  have h := deletion_failure_job_succeeds (fun _ => ModelOutcome.ok " hi " [⟨0, 1, "a"⟩])
    "audio/a.mp3" "result/a.txt" (fsWrite emptyFS "audio/a.mp3" "AUDIO") " hi "
    [⟨0, 1, "a"⟩] rfl (by decide)
  refine ⟨rfl, h.1, ?_, ?_⟩
  · rw [h.2.1]
    decide
  · rw [h.2.2.2.1 "audio/a.mp3" (by decide) (by decide)]
    decide

end Whisper

namespace Whisper

/-! ### Path arithmetic for the batch driver -/

theorem isPrefixOf_append_self (l t : List Char) : l.isPrefixOf (l ++ t) = true := by
  induction l with
  | nil => simp [List.isPrefixOf]
  | cons a as ih => simp [List.isPrefixOf, ih]

theorem dropWhile_ne_nil_of_exists (p : Char → Bool) (xs : List Char)
    (h : ∃ x ∈ xs, p x = false) : xs.dropWhile p ≠ [] := by
  induction xs with
  | nil => simp at h
  | cons a as ih =>
    by_cases hp : p a
    · rw [List.dropWhile_cons_of_pos hp]
      apply ih
      rcases h with ⟨x, hx, hpx⟩
      rcases List.mem_cons.mp hx with rfl | hx
      · rw [hp] at hpx
        cases hpx
      · exact ⟨x, hx, hpx⟩
    · rw [List.dropWhile_cons_of_neg hp]
      simp

theorem dropWhile_append_left (p : Char → Bool) (xs ys : List Char)
    (h : xs.dropWhile p ≠ []) : (xs ++ ys).dropWhile p = xs.dropWhile p ++ ys := by
  induction xs with
  | nil => simp at h
  | cons a as ih =>
    by_cases hp : p a
    · rw [List.cons_append, List.dropWhile_cons_of_pos hp, List.dropWhile_cons_of_pos hp]
      rw [List.dropWhile_cons_of_pos hp] at h
      exact ih h
    · rw [List.cons_append, List.dropWhile_cons_of_neg hp, List.dropWhile_cons_of_neg hp]
      rfl

theorem pyJoin_std (a b : String) (ha : a.data ≠ []) (hal : a.data.getLast? ≠ some '/')
    (hb : b.data.head? ≠ some '/') : pyJoin a b = a ++ "/" ++ b := by
  unfold pyJoin
  rw [if_neg hb, if_neg ha, if_neg hal]

theorem pyRelpath_under (base rel : String) (h : rel.data ≠ []) :
    pyRelpath (base ++ "/" ++ rel) base = rel := by
  have hne : base ++ "/" ++ rel ≠ base := by
    intro he
    have hlen := congrArg (fun s => s.data.length) he
    simp only [data_append, List.length_append] at hlen
    have h1 : (("/" : String)).data.length = 1 := rfl
    have hrl : 0 < rel.data.length := List.length_pos.mpr h
    omega
  have hpre : ((base ++ "/").data).isPrefixOf ((base ++ "/" ++ rel).data) = true := by
    rw [show ((base ++ "/" ++ rel)).data = (base ++ "/").data ++ rel.data from rfl]
    exact isPrefixOf_append_self _ _
  unfold pyRelpath
  rw [if_neg hne, if_pos hpre]
  apply string_eq_of_data
  rw [data_mk]
  rw [show ((base ++ "/" ++ rel)).data = (base ++ "/").data ++ rel.data from rfl]
  rw [show base.length + 1 = ((base ++ "/")).data.length from by
    rw [show ((base ++ "/")).data = base.data ++ ['/'] from rfl, List.length_append]
    rfl]
  exact List.drop_left _ _

theorem mem_splitextRoot {c : Char} {f : String} (h : c ∈ (splitextRoot f).data) :
    c ∈ f.data := by
  simp only [splitextRoot] at h
  split at h
  · rw [data_mk] at h
    exact List.take_subset _ _ h
  · exact h

theorem splitextRoot_append_ext (P : String) (e : List Char)
    (hd : '.' ∉ e) (hs : '/' ∉ e)
    (hl : ∃ c ∈ P.data.reverse.takeWhile (fun x => x ≠ '/'), c ≠ '.') :
    splitextRoot ⟨P.data ++ '.' :: e⟩ = P := by
  have hrev : (P.data ++ '.' :: e).reverse = e.reverse ++ '.' :: P.data.reverse := by
    simp
  have hrb : (P.data ++ '.' :: e).reverse.takeWhile (fun c => c ≠ '/') =
      e.reverse ++ '.' :: P.data.reverse.takeWhile (fun c => c ≠ '/') := by
    rw [hrev, List.takeWhile_append_of_pos]
    · rw [List.takeWhile_cons_of_pos (by simp)]
    · intro x hx
      simp only [decide_eq_true_eq]
      intro hx'
      exact hs (hx' ▸ List.mem_reverse.mp hx)
  have hbase : (e.reverse ++ '.' :: P.data.reverse.takeWhile (fun c => c ≠ '/')).reverse =
      (P.data.reverse.takeWhile (fun c => c ≠ '/')).reverse ++ '.' :: e := by
    simp
  have hcorene : ((P.data.reverse.takeWhile (fun c => c ≠ '/')).reverse).dropWhile
      (fun c => c = '.') ≠ [] := by
    apply dropWhile_ne_nil_of_exists
    rcases hl with ⟨c, hc, hcd⟩
    exact ⟨c, List.mem_reverse.mpr hc, by simp [hcd]⟩
  have hcore : (((P.data.reverse.takeWhile (fun c => c ≠ '/')).reverse ++ '.' :: e)).dropWhile
      (fun c => c = '.') =
      ((P.data.reverse.takeWhile (fun c => c ≠ '/')).reverse).dropWhile (fun c => c = '.') ++
        '.' :: e :=
    dropWhile_append_left _ _ _ hcorene
  have hext : ((e.reverse ++ '.' :: P.data.reverse.takeWhile (fun c => c ≠ '/'))).takeWhile
      (fun c => c ≠ '.') = e.reverse := by
    rw [List.takeWhile_append_of_pos]
    · rw [List.takeWhile_cons_of_neg (by simp), List.append_nil]
    · intro x hx
      simp only [decide_eq_true_eq]
      intro hx'
      exact hd (hx' ▸ List.mem_reverse.mp hx)
  unfold splitextRoot
  simp only [data_mk, hrb, hbase, hcore, hext]
  rw [if_pos]
  · apply string_eq_of_data
    rw [data_mk]
    rw [show (P.data ++ '.' :: e).length - (e.reverse.length + 1) = P.data.length from by
      simp only [List.length_append, List.length_cons, List.length_reverse]
      omega]
    exact List.take_left _ _
  · rw [List.elem_iff]
    exact List.mem_append.mpr (Or.inr (List.mem_cons_self _ _))

theorem splitextRoot_txt (P : String)
    (hl : ∃ c ∈ P.data.reverse.takeWhile (fun x => x ≠ '/'), c ≠ '.') :
    splitextRoot (P ++ ".txt") = P := by
  rw [show P ++ ".txt" = (⟨P.data ++ '.' :: ['t', 'x', 't']⟩ : String) from rfl]
  exact splitextRoot_append_ext P ['t', 'x', 't'] (by decide) (by decide) hl

theorem lastComp_of_append (pre base : String) (hb : '/' ∉ base.data) :
    ((pre ++ "/" ++ base)).data.reverse.takeWhile (fun x => x ≠ '/') = base.data.reverse := by
  rw [show ((pre ++ "/" ++ base)).data = (pre ++ "/").data ++ base.data from rfl]
  rw [List.reverse_append]
  rw [List.takeWhile_append_of_pos]
  · rw [show ((pre ++ "/")).data = pre.data ++ ['/'] from rfl, List.reverse_append]
    rw [show (['/'] : List Char).reverse = ['/'] from rfl, List.singleton_append]
    rw [List.takeWhile_cons_of_neg (by simp), List.append_nil]
  · intro x hx
    simp only [decide_eq_true_eq]
    intro hx'
    exact hb (hx' ▸ List.mem_reverse.mp hx)

theorem string_ne_of_head {a b : String} (h : a.data.head? ≠ b.data.head?) : a ≠ b :=
  fun he => h (by rw [he])

end Whisper

namespace Whisper

theorem transcribe_fs_ok (model : Model) (i o : String) (fs : FS) (text : String)
    (segs : List Segment) (hm : model i = ModelOutcome.ok text segs) :
    (transcribe_audio_to_text model false i o fs).fs =
      fsRemove (save_srt_file segs (splitextRoot o ++ ".srt")
        (fsWrite fs o (pyStrip (replaceNewlineWithSpace text) ++ "\n"))).1 i := by
  simp [transcribe_audio_to_text, hm]

theorem processEntry_fs_matched (job : Job) (inF outF root file : String) (st : BatchState)
    (h : pyEndsWith (pyLower file) ".mp3" = true) :
    (processEntry job inF outF root file st).fs =
      (job (pyJoin root file)
        (pyJoin (pyJoin outF (pyRelpath root inF)) (splitextRoot file ++ ".txt")) st.fs).fs := by
  unfold processEntry
  rw [if_pos h]
  rcases hfo : (job (pyJoin root file)
      (pyJoin (pyJoin outF (pyRelpath root inF)) (splitextRoot file ++ ".txt")) st.fs).failed with
    _ | e <;> simp [hfo]

/-- C3: for a file discovered at `audio/<rel>/<file>` with a matching
extension, the driver mirrors the relative path under the output root and
replaces the extension: on a successful job the text output exists at
`result/<rel>/<base>.txt` with the normalized transcript, the subtitle
output exists at `result/<rel>/<base>.srt` exactly when segments were
produced (that path is untouched otherwise), and the input file no longer
exists. -/
theorem batch_output_paths (model : Model) (text : String) (segs : List Segment)
    (rel file : String) (st : BatchState)
    (hrelne : rel.data ≠ []) (hrelh : rel.data.head? ≠ some '/')
    (hrell : rel.data.getLast? ≠ some '/') (hfile : '/' ∉ file.data)
    (hfext : pyEndsWith (pyLower file) ".mp3" = true)
    (hbase : ∃ c ∈ (splitextRoot file).data, c ≠ '.')
    (hm : model (pyJoin ("audio/" ++ rel) file) = ModelOutcome.ok text segs) :
    (processEntry (transcribe_audio_to_text model false) "audio" "result"
        ("audio/" ++ rel) file st).fs
        ("result/" ++ rel ++ "/" ++ splitextRoot file ++ ".txt") =
      some (pyStrip (replaceNewlineWithSpace text) ++ "\n") ∧
    (segs ≠ [] →
      (processEntry (transcribe_audio_to_text model false) "audio" "result"
          ("audio/" ++ rel) file st).fs
          ("result/" ++ rel ++ "/" ++ splitextRoot file ++ ".srt") =
        some (srtContent segs)) ∧
    (segs = [] →
      (processEntry (transcribe_audio_to_text model false) "audio" "result"
          ("audio/" ++ rel) file st).fs
          ("result/" ++ rel ++ "/" ++ splitextRoot file ++ ".srt") =
        st.fs ("result/" ++ rel ++ "/" ++ splitextRoot file ++ ".srt")) ∧
    (processEntry (transcribe_audio_to_text model false) "audio" "result"
        ("audio/" ++ rel) file st).fs ("audio/" ++ rel ++ "/" ++ file) = none := by
  have hbslash : '/' ∉ (splitextRoot file).data := fun hh => hfile (mem_splitextRoot hh)
  have hfileh : file.data.head? ≠ some '/' := by
    intro hh
    cases hcf : file.data with
    | nil => rw [hcf] at hh; cases hh
    | cons a l =>
      rw [hcf] at hh
      simp only [List.head?_cons, Option.some.injEq] at hh
      apply hfile
      rw [hcf, hh]
      exact List.mem_cons_self _ _
  have hrootne : (("audio/" ++ rel)).data ≠ [] := by
    rw [show (("audio/" ++ rel)).data = ("audio/").data ++ rel.data from rfl]
    intro hh
    exact absurd (List.append_eq_nil.mp hh).1 (by decide)
  have hrootlast : (("audio/" ++ rel)).data.getLast? ≠ some '/' := by
    rw [show (("audio/" ++ rel)).data = ("audio/").data ++ rel.data from rfl,
      List.getLast?_append_of_ne_nil _ hrelne]
    exact hrell
  have hinput : pyJoin ("audio/" ++ rel) file = "audio/" ++ rel ++ "/" ++ file :=
    pyJoin_std _ _ hrootne hrootlast hfileh
  have hm' : model ("audio/" ++ rel ++ "/" ++ file) = ModelOutcome.ok text segs := by
    rw [← hinput]
    exact hm
  have hrelp : pyRelpath ("audio/" ++ rel) "audio" = rel := by
    rw [show (("audio/" ++ rel) : String) = "audio" ++ "/" ++ rel from rfl]
    exact pyRelpath_under "audio" rel hrelne
  have hdir : pyJoin "result" rel = "result/" ++ rel := by
    rw [pyJoin_std "result" rel (by decide) (by decide) hrelh]
    rw [show ("result" ++ "/" : String) = "result/" from rfl]
  have houtne : (("result/" ++ rel)).data ≠ [] := by
    rw [show (("result/" ++ rel)).data = ("result/").data ++ rel.data from rfl]
    intro hh
    exact absurd (List.append_eq_nil.mp hh).1 (by decide)
  have houtlast : (("result/" ++ rel)).data.getLast? ≠ some '/' := by
    rw [show (("result/" ++ rel)).data = ("result/").data ++ rel.data from rfl,
      List.getLast?_append_of_ne_nil _ hrelne]
    exact hrell
  have hbaseh : ((splitextRoot file ++ ".txt")).data.head? ≠ some '/' := by
    rw [show ((splitextRoot file ++ ".txt")).data =
      (splitextRoot file).data ++ ((".txt" : String)).data from rfl]
    cases hcb : (splitextRoot file).data with
    | nil => decide
    | cons a l =>
      simp only [List.cons_append, List.head?_cons, ne_eq, Option.some.injEq]
      intro hh
      apply hfile
      apply mem_splitextRoot (f := file)
      rw [hcb, hh]
      exact List.mem_cons_self _ _
  have houtfile : pyJoin ("result/" ++ rel) (splitextRoot file ++ ".txt") =
      "result/" ++ rel ++ "/" ++ (splitextRoot file ++ ".txt") :=
    pyJoin_std _ _ houtne houtlast hbaseh
  have htxtassoc : ("result/" ++ rel ++ "/" ++ (splitextRoot file ++ ".txt") : String) =
      "result/" ++ rel ++ "/" ++ splitextRoot file ++ ".txt" := by
    simp [String.append_assoc]
  have hsplitP : splitextRoot ("result/" ++ rel ++ "/" ++ splitextRoot file ++ ".txt") =
      "result/" ++ rel ++ "/" ++ splitextRoot file := by
    apply splitextRoot_txt
    rw [lastComp_of_append ("result/" ++ rel) (splitextRoot file) hbslash]
    rcases hbase with ⟨c, hc, hcd⟩
    exact ⟨c, List.mem_reverse.mpr hc, hcd⟩
  have htxt_ne_input : ("result/" ++ rel ++ "/" ++ splitextRoot file ++ ".txt" : String) ≠
      "audio/" ++ rel ++ "/" ++ file := by
    apply string_ne_of_head
    rw [show (("result/" ++ rel ++ "/" ++ splitextRoot file ++ ".txt")).data.head? =
        some 'r' from rfl,
      show (("audio/" ++ rel ++ "/" ++ file)).data.head? = some 'a' from rfl]
    decide
  have hsrt_ne_input : ("result/" ++ rel ++ "/" ++ splitextRoot file ++ ".srt" : String) ≠
      "audio/" ++ rel ++ "/" ++ file := by
    apply string_ne_of_head
    rw [show (("result/" ++ rel ++ "/" ++ splitextRoot file ++ ".srt")).data.head? =
        some 'r' from rfl,
      show (("audio/" ++ rel ++ "/" ++ file)).data.head? = some 'a' from rfl]
    decide
  have htxt_ne_srt : ("result/" ++ rel ++ "/" ++ splitextRoot file ++ ".txt" : String) ≠
      "result/" ++ rel ++ "/" ++ splitextRoot file ++ ".srt" := by
    intro hh
    have h2 := congrArg String.data hh
    rw [show (("result/" ++ rel ++ "/" ++ splitextRoot file ++ ".txt")).data =
        (("result/" ++ rel ++ "/" ++ splitextRoot file)).data ++ ((".txt" : String)).data
        from rfl,
      show (("result/" ++ rel ++ "/" ++ splitextRoot file ++ ".srt")).data =
        (("result/" ++ rel ++ "/" ++ splitextRoot file)).data ++ ((".srt" : String)).data
        from rfl] at h2
    exact absurd (List.append_cancel_left h2) (by decide)
  have hfs : (processEntry (transcribe_audio_to_text model false) "audio" "result"
      ("audio/" ++ rel) file st).fs =
      fsRemove (save_srt_file segs
          (("result/" ++ rel ++ "/" ++ splitextRoot file) ++ ".srt")
          (fsWrite st.fs ("result/" ++ rel ++ "/" ++ splitextRoot file ++ ".txt")
            (pyStrip (replaceNewlineWithSpace text) ++ "\n"))).1
        ("audio/" ++ rel ++ "/" ++ file) := by
    rw [processEntry_fs_matched _ _ _ _ _ _ hfext, hrelp, hdir, houtfile, hinput, htxtassoc,
      transcribe_fs_ok model _ _ st.fs text segs hm', hsplitP]
  refine ⟨?_, ?_, ?_, ?_⟩
  · rw [hfs]
    unfold fsRemove
    rw [if_neg htxt_ne_input, save_srt_fst_apply_ne _ _ _ _ htxt_ne_srt]
    unfold fsWrite
    rw [if_pos rfl]
  · intro hsegs
    rw [hfs]
    unfold fsRemove
    rw [if_neg hsrt_ne_input]
    exact save_srt_fst_apply_self segs _ _ hsegs
  · intro hsegs
    subst hsegs
    rw [hfs]
    unfold fsRemove
    rw [if_neg hsrt_ne_input]
    show fsWrite st.fs _ _ _ = _
    unfold fsWrite
    rw [if_neg (fun hh => htxt_ne_srt hh.symm)]
  · rw [hfs]
    unfold fsRemove
    rw [if_pos rfl]

/-- Witness for C3 on the specification's example tree
`audio/sub/a.mp3 → result/sub/a.txt, result/sub/a.srt`. -/
theorem batch_output_paths_witness :
    (processEntry (transcribe_audio_to_text
        (fun _ => ModelOutcome.ok "hello" [⟨0, 1.5, "hi"⟩]) false) "audio" "result"
        "audio/sub" "a.mp3" ⟨emptyFS, [], []⟩).fs "result/sub/a.txt" = some "hello\n" ∧
    (processEntry (transcribe_audio_to_text
        (fun _ => ModelOutcome.ok "hello" [⟨0, 1.5, "hi"⟩]) false) "audio" "result"
        "audio/sub" "a.mp3" ⟨emptyFS, [], []⟩).fs "result/sub/a.srt" =
      some "1\n00:00:00,000 --> 00:00:01,500\nhi\n" ∧
    (processEntry (transcribe_audio_to_text
        (fun _ => ModelOutcome.ok "hello" [⟨0, 1.5, "hi"⟩]) false) "audio" "result"
        "audio/sub" "a.mp3" ⟨emptyFS, [], []⟩).fs "audio/sub/a.mp3" = none := by
  have h := batch_output_paths (fun _ => ModelOutcome.ok "hello" [⟨0, 1.5, "hi"⟩])
    "hello" [⟨0, 1.5, "hi"⟩] "sub" "a.mp3" ⟨emptyFS, [], []⟩
    (by decide) (by decide) (by decide) (by decide) (by decide) (by decide) rfl
  refine ⟨?_, ?_, ?_⟩
  · rw [show ("result/sub/a.txt" : String) =
      "result/" ++ "sub" ++ "/" ++ splitextRoot "a.mp3" ++ ".txt" from rfl,
      show ("audio/sub" : String) = "audio/" ++ "sub" from rfl]
    rw [h.1]
    decide
  · rw [show ("result/sub/a.srt" : String) =
      "result/" ++ "sub" ++ "/" ++ splitextRoot "a.mp3" ++ ".srt" from rfl,
      show ("audio/sub" : String) = "audio/" ++ "sub" from rfl]
    rw [h.2.1 (by simp)]
    decide
  · rw [show ("audio/sub/a.mp3" : String) = "audio/" ++ "sub" ++ "/" ++ "a.mp3" from rfl,
      show ("audio/sub" : String) = "audio/" ++ "sub" from rfl]
    exact h.2.2.2

end Whisper
